import Mathlib

/-!
Verification development for the OpenClaw local semantic memory engine
(`local-semantic-memory.py`): a workspace-scoped memory store with hybrid
vector + keyword search fused by Reciprocal Rank Fusion, content
deduplication, confidence decay, and a retract-and-replace correction
workflow.

The shallow embedding below translates the Python class
`LocalSemanticMemory` into pure Lean functions over an explicit engine
state.  External collaborators (the Ollama embedding provider, ChromaDB's
cosine nearest-neighbour index, SQLite FTS5's BM25 ranking, and the
cryptographic hash functions) are modelled as unconstrained function
parameters bundled in `Env`; the vector index's query contract
("ranked by cosine distance") is realised by sorting records by the
supplied distance function.  Python floats are modelled by rationals, and
Python's `round(x, n)` (banker's rounding) by `pyRound`.  Timestamps are
naturals: the code compares ISO-8601 strings, whose lexicographic order
coincides with chronological order.
-/

attribute [local semireducible] Rat.add Rat.sub Rat.mul Rat.inv

namespace SemanticMemory

/-- Python's `round(x, ndigits)`: round to `ndigits` decimal places with
ties going to the nearest even multiple (banker's rounding). -/
def pyRound (x : ℚ) (ndigits : Nat) : ℚ :=
  let m : ℚ := (10 : ℚ) ^ ndigits
  let y := x * m
  let f : ℤ := ⌊y⌋
  let r := y - f
  let n : ℤ :=
    if r < 1 / 2 then f
    else if 1 / 2 < r then f + 1
    else if f % 2 = 0 then f else f + 1
  (n : ℚ) / m

/-- Record metadata, as written by `add` and mutated by `search`'s access
bookkeeping, `decay` and `correct`.  The Python code stores these in an open
metadata dict; every field the code reads or writes is a typed field here.
Fields that the code only sets when a value is present are `Option`s. -/
structure Meta where
  category : String
  timestamp : Nat
  workspace : String
  agentId : String
  confidence : ℚ
  accessCount : Nat
  lastAccessed : Nat
  pinned : Bool
  contentHash : String
  retracted : Bool
  retractedAt : Option Nat
  retractedByAgent : Option String
  retractionReason : Option String
  replacedBy : Option String
  correctsId : Option String
  originalText : Option String
  correctionReason : Option String
  isLesson : Bool
  mistake : Option String
deriving DecidableEq, Repr

/-- One stored memory: ChromaDB keeps `(id, embedding, document, metadata)`. -/
structure MemoryRecord where
  id : String
  text : String
  embedding : List ℚ
  meta : Meta
deriving DecidableEq, Repr

/-- The persistent state: the ChromaDB collection (`records`, in insertion
order), the FTS5 table `memories_fts` (`fts`, rows `(doc_id, text)`; the
derived `keywords` column only feeds the external BM25 matcher) and the
`memory_hashes` table (`hashes`, rows `(doc_id, content_hash)`, insertion
order). -/
structure EngineState where
  records : List MemoryRecord
  fts : List (String × String)
  hashes : List (String × String)
deriving DecidableEq, Repr

/-- External collaborators and ambient identity, fixed for one invocation:
`embed` is the Ollama embedding provider; `dist` the vector index's cosine
distance; `bm25` the FTS5 engine's ranking of table rows against the
tokenized query (lower score = more relevant, already ordered); `md5` and
`sha256` the hash functions used for id generation and the content hash;
`now` the current instant. -/
structure Env where
  embed : String → List ℚ
  dist : List ℚ → List ℚ → ℚ
  bm25 : List String → List (String × String) → List (String × ℚ)
  md5 : String → String
  sha256 : String → String
  agentId : String
  workspaceName : String
  now : Nat

/-- `str.lower()` (character-wise, over the string's character list so
that concrete instances evaluate). -/
def strLower (s : String) : String :=
  String.mk (s.data.map Char.toLower)

/-- Python string slicing `s[:n]` (by characters). -/
def strTake (s : String) (n : Nat) : String :=
  String.mk (s.data.take n)

/-- `str.strip()`: drop leading and trailing whitespace. -/
def strTrim (s : String) : String :=
  String.mk
    (((s.data.dropWhile Char.isWhitespace).reverse.dropWhile
        Char.isWhitespace).reverse)

/-- Maximal runs of word characters (`\w+` as in `re.findall`), i.e. the
word tokens of a string.  `cur` accumulates the current run reversed. -/
def tokenizeAux (cur : List Char) : List Char → List String
  | [] => if cur.isEmpty then [] else [String.mk cur.reverse]
  | c :: cs =>
    if c.isAlphanum || c == '_' then tokenizeAux (c :: cur) cs
    else if cur.isEmpty then tokenizeAux [] cs
    else String.mk cur.reverse :: tokenizeAux [] cs

/-- All `\w+` tokens of a string. -/
def tokenize (s : String) : List String :=
  tokenizeAux [] s.data

/-- `hashlib.sha256(text.strip().lower().encode()).hexdigest()`. -/
def normHash (env : Env) (text : String) : String :=
  env.sha256 (strLower (strTrim text))

/-- All record ids of the collection. -/
def EngineState.ids (s : EngineState) : List String :=
  s.records.map (fun r => r.id)

/-- Well-formedness: ChromaDB enforces one record per id. -/
def EngineState.wf (s : EngineState) : Prop :=
  s.ids.Nodup

/- ## Stable insertion sort, used to realise ranked queries -/

/-- Insert `a` in front of the first element `x` with `le a x`. -/
def insertBy (le : α → α → Bool) (a : α) : List α → List α
  | [] => [a]
  | x :: xs => if le a x then a :: x :: xs else x :: insertBy le a xs

/-- Stable insertion sort. -/
def sortBy (le : α → α → Bool) : List α → List α
  | [] => []
  | x :: xs => insertBy le x (sortBy le xs)

/-- Sort ascending by a rational key (ties keep input order). -/
def sortAscBy (f : α → ℚ) (l : List α) : List α :=
  sortBy (fun a b => decide (f a ≤ f b)) l

/-- Sort descending by a rational key (ties keep input order), as Python's
stable `list.sort(key=..., reverse=True)`. -/
def sortDescBy (f : α → ℚ) (l : List α) : List α :=
  sortBy (fun a b => decide (f b ≤ f a)) l

/- ## Intent classification (`_classify_intent`) -/

def whoWords : List String :=
  ["who", "person", "people", "family", "doctor", "dentist", "boss",
   "manager", "team", "colleague"]

/-- The `meeting\s+time` alternative of the WHEN pattern is subsumed by the
bare `time` alternative, so word-level matching is exact here. -/
def whenWords : List String :=
  ["when", "date", "time", "schedule", "deadline", "appointment",
   "birthday", "anniversary"]

def whereWords : List String :=
  ["where", "location", "address", "place", "office", "room", "building",
   "city"]

/-- `likes?`, `prefers?`, ... with `\b` on both sides match exactly these
whole words. -/
def prefWords : List String :=
  ["like", "likes", "prefer", "prefers", "preference", "favorite",
   "favourite", "enjoy", "enjoys", "hate", "hates", "dislike", "dislikes",
   "want", "wants"]

/-- Lower-cased `\w+` word tokens of a query (used for the `\b(...)\b`
pattern searches). -/
def queryWords (q : String) : List String :=
  tokenize (strLower q)

/-- `_classify_intent`: first matching pattern wins, fallback
`(0.7, 0.3)`.  Returns `(intent_name, vector_weight, fts_weight)`. -/
def classifyIntent (q : String) : String × ℚ × ℚ :=
  let ws := queryWords q
  if ws.any (fun w => whoWords.contains w) then ("WHO", 1/2, 1/2)
  else if ws.any (fun w => whenWords.contains w) then ("WHEN", 2/5, 3/5)
  else if ws.any (fun w => whereWords.contains w) then ("WHERE", 1/2, 1/2)
  else if ws.any (fun w => prefWords.contains w) then ("PREFERENCE", 4/5, 1/5)
  else ("DEFAULT", 7/10, 3/10)

/- ## Keyword search (`_fts_query`) -/

/-- `_fts_query`: tokenize into `\w{2,}` terms, OR them, let the external
BM25 engine rank the table, `LIMIT n_results`.  The `category` argument is
accepted but never used, exactly as in the source. -/
def ftsQuery (env : Env) (s : EngineState) (query : String) (nResults : Nat)
    (_category : Option String) : List (String × ℚ) :=
  let tokens := (tokenize (strLower query)).filter
    (fun w => decide (2 ≤ w.length))
  if tokens.isEmpty then []
  else (env.bm25 tokens s.fts).take nResults

/- ## Vector search (ChromaDB `collection.query`) -/

/-- ChromaDB query contract: optional metadata `where` filter on category,
then the `k` nearest records by cosine distance. -/
def vectorQueryRecs (env : Env) (recs : List MemoryRecord) (q : List ℚ)
    (k : Nat) (cat : Option String) : List MemoryRecord :=
  let filtered := match cat with
    | some c => recs.filter (fun r => decide (r.meta.category = c))
    | none => recs
  (sortAscBy (fun r => env.dist q r.embedding) filtered).take k

/- ## RRF fusion (`_rrf_fuse`) -/

/-- One fused search result dict: `text`, `distance`, `metadata`, `id`,
plus the fields the pipeline adds later (`rrf_score`, the
`include_retracted` marker, the output `confidence`, and the reranker's
`llm_rating` / `rerank_score`). -/
structure SearchEntry where
  text : String
  distance : ℚ
  metadata : Meta
  id : String
  rrfScore : ℚ := 0
  retractedFlag : Bool := false
  confidence : ℚ := 1
  llmRating : Option Nat := none
  rerankScore : Option ℚ := none
deriving DecidableEq, Repr

/-- The RRF scoring formula exactly as the spec states it: rank 0 is the
best match, and an id missing from one source gets a synthetic rank of the
other source's list length plus 100. -/
def claimedRrfScore (vecIds ftsIds : List String) (vw fw : ℚ)
    (did : String) : ℚ :=
  let vr : ℚ := match vecIds.findIdx? (fun x => x == did) with
    | some i => (i : ℚ)
    | none => (vecIds.length : ℚ) + 100
  let fr : ℚ := match ftsIds.findIdx? (fun x => x == did) with
    | some i => (i : ℚ)
    | none => (ftsIds.length : ℚ) + 100
  vw / (60 + vr) + fw / (60 + fr)

/-- `_rrf_fuse`: build rank maps for both sources, fetch full data for
FTS-only ids from the collection (skipping ids the collection cannot
return), score every candidate with the RRF formula (`round(..., 6)` as in
the source), sort descending by fused score and truncate to `n_results`.
The Python code enumerates the candidate id set in (unspecified) `set`
order before the sort; the model enumerates vector candidates first, then
FTS-only candidates, which only fixes the order of score ties. -/
def rrfFuse (recs : List MemoryRecord) (vec : List SearchEntry)
    (fts : List (String × ℚ)) (vw fw : ℚ) (n : Nat) : List SearchEntry :=
  let vecIds := vec.map (fun e => e.id)
  let ftsIds := fts.map Prod.fst
  let ftsOnly := ftsIds.filter (fun did => !vecIds.contains did)
  let fetched := ftsOnly.filterMap (fun did =>
    (recs.find? (fun r => decide (r.id = did))).map (fun r =>
      { text := r.text, distance := 1, metadata := r.meta, id := did }))
  let candidates := vec ++ fetched
  let scored := candidates.map (fun e =>
    { e with rrfScore := pyRound (claimedRrfScore vecIds ftsIds vw fw e.id) 6 })
  (sortDescBy (fun e => e.rrfScore) scored).take n

/- ## Deduplication gate (`_check_exact_duplicate`, `_check_near_duplicate`) -/

/-- `SELECT doc_id FROM memory_hashes WHERE content_hash = ? LIMIT 1`:
first row (in insertion order) whose content hash matches. -/
def hashLookup (hashes : List (String × String)) (h : String) :
    Option String :=
  (hashes.find? (fun q => decide (q.2 = h))).map Prod.fst

/-- The scan of `_check_near_duplicate` over the neighbour list: each
neighbour's `similarity = 1 - distance`; the first neighbour at or above
the threshold is returned at once; a neighbour in `[0.88, threshold)`
raises the non-fatal warning flag and the scan continues. -/
def nearDupLoop (threshold : ℚ) (warned : Bool) :
    List (String × ℚ) → Option (String × ℚ) × Bool
  | [] => (none, warned)
  | (did, d) :: rest =>
    let sim := 1 - d
    if threshold ≤ sim then (some (did, sim), warned)
    else if 88/100 ≤ sim then nearDupLoop threshold true rest
    else nearDupLoop threshold warned rest

/-- `_check_near_duplicate`: query the vector index for the 3 nearest
neighbours of the new embedding and scan them.  Also returns whether the
near-duplicate warning was printed. -/
def checkNearDuplicate (env : Env) (recs : List MemoryRecord)
    (emb : List ℚ) (threshold : ℚ) : Option (String × ℚ) × Bool :=
  if recs.length = 0 then (none, false)
  else
    let nn := vectorQueryRecs env recs emb 3 none
    nearDupLoop threshold false
      (nn.map (fun r => (r.id, env.dist emb r.embedding)))

/- ## `add` -/

/-- The caller-supplied metadata dict merged over the base metadata by
`meta.update(metadata)`: `correct` passes the correction fields, `lesson`
the lesson fields. -/
structure MetaPatch where
  correctsId : Option String := none
  originalText : Option String := none
  correctionReason : Option String := none
  isLesson : Option Bool := none
  mistake : Option String := none
deriving DecidableEq, Repr

/-- `meta.update(metadata)`: keys present in the patch override. -/
def Meta.applyPatch (m : Meta) (p : MetaPatch) : Meta :=
  { m with
    correctsId := p.correctsId.orElse (fun _ => m.correctsId)
    originalText := p.originalText.orElse (fun _ => m.originalText)
    correctionReason := p.correctionReason.orElse (fun _ => m.correctionReason)
    isLesson := p.isLesson.getD m.isLesson
    mistake := p.mistake.orElse (fun _ => m.mistake) }

/-- The fresh metadata `add` writes for a new record. -/
def baseMeta (env : Env) (category chash : String) : Meta :=
  { category := category
    timestamp := env.now
    workspace := env.workspaceName
    agentId := env.agentId
    confidence := 1
    accessCount := 0
    lastAccessed := env.now
    pinned := false
    contentHash := chash
    retracted := false
    retractedAt := none
    retractedByAgent := none
    retractionReason := none
    replacedBy := none
    correctsId := none
    originalText := none
    correctionReason := none
    isLesson := false
    mistake := none }

/-- What one `add` call did: the returned id, the state after the call,
whether the embedding provider was called, whether the near-duplicate
warning was printed, and whether a new record was actually inserted. -/
structure AddResult where
  id : String
  state : EngineState
  embedCalled : Bool
  warned : Bool
  inserted : Bool
deriving DecidableEq, Repr

/-- The insertion tail of `add`: generate the id, build the metadata, and
write to ChromaDB, FTS5 and the hash ledger as one unit (`_fts_insert`
uses `INSERT OR IGNORE` keyed on `doc_id` for the hash row; the retry loop
is invisible here because the modelled backends do not fail). -/
def insertRecord (env : Env) (s : EngineState) (text category : String)
    (patch : MetaPatch) (emb : List ℚ) (warned : Bool) : AddResult :=
  let memoryId := env.md5 (text ++ ":" ++ category ++ ":" ++ toString env.now)
  let meta := (baseMeta env category (normHash env text)).applyPatch patch
  let r : MemoryRecord :=
    { id := memoryId, text := text, embedding := emb, meta := meta }
  let s' : EngineState :=
    { records := s.records ++ [r]
      fts := s.fts ++ [(memoryId, text)]
      hashes :=
        if s.hashes.any (fun q => decide (q.1 = memoryId)) then s.hashes
        else s.hashes ++ [(memoryId, normHash env text)] }
  { id := memoryId, state := s', embedCalled := true, warned := warned,
    inserted := true }

/-- `add(text, category, metadata, force)`: unless forced, an exact
content-hash hit returns the existing id with no write and no embedding
call; otherwise the text is embedded and, unless forced, a near-duplicate
at similarity ≥ 0.95 absorbs the call (its id is returned, nothing is
written); otherwise a new record is inserted. -/
def add (env : Env) (s : EngineState) (text category : String)
    (patch : MetaPatch) (force : Bool) : AddResult :=
  match (if force then none else hashLookup s.hashes (normHash env text)) with
  | some existingId =>
    { id := existingId, state := s, embedCalled := false, warned := false,
      inserted := false }
  | none =>
    let emb := env.embed text
    let nd := if force then (none, false)
              else checkNearDuplicate env s.records emb (95/100)
    match nd.1 with
    | some p =>
      { id := p.1, state := s, embedCalled := true, warned := nd.2,
        inserted := false }
    | none => insertRecord env s text category patch emb nd.2

/- ## `search` -/

/-- `_is_retracted` applied to a result entry. -/
def isRetractedEntry (e : SearchEntry) : Bool :=
  e.metadata.retracted

/-- Vector candidates as result entries (`text`, `distance`, `metadata`,
`id`), in nearest-first order. -/
def vectorEntries (env : Env) (s : EngineState) (qEmb : List ℚ) (k : Nat)
    (cat : Option String) : List SearchEntry :=
  (vectorQueryRecs env s.records qEmb k cat).map (fun r =>
    { text := r.text, distance := env.dist qEmb r.embedding,
      metadata := r.meta, id := r.id })

/-- The vector-only fallback scoring when FTS returned nothing:
`rrf_score = round(1.0 / (60 + rank), 6)` by position. -/
def withFallbackScores : Nat → List SearchEntry → List SearchEntry
  | _, [] => []
  | i, e :: rest =>
    { e with rrfScore := pyRound (1 / (60 + (i : ℚ))) 6 }
      :: withFallbackScores (i + 1) rest

/-- The fused (or vector-only) candidate list of one `search` call, before
the retraction filter: intent-weighted RRF fusion of the oversampled
vector and keyword queries.  Note the fusion itself already truncates to
`n_results` (see `rrfFuse`). -/
def fusedMemories (env : Env) (s : EngineState) (query : String)
    (nResults : Nat) (cat : Option String) (includeRetracted : Bool) :
    List SearchEntry :=
  let w := classifyIntent query
  let oversample := nResults * (if includeRetracted then 2 else 3)
  let qEmb := env.embed query
  let vec := vectorEntries env s qEmb oversample cat
  let fts := ftsQuery env s query oversample cat
  if fts.isEmpty then withFallbackScores 0 (vec.take nResults)
  else rrfFuse s.records vec fts w.2.1 w.2.2 nResults

/-- `_touch_results`: bump `access_count` and refresh `last_accessed` for
every returned record (non-fatal in the source; the modelled backend does
not fail). -/
def touch (env : Env) (recs : List MemoryRecord) (ids : List String) :
    List MemoryRecord :=
  recs.map (fun r =>
    if ids.contains r.id then
      { r with meta :=
          { r.meta with
            lastAccessed := env.now
            accessCount := r.meta.accessCount + 1 } }
    else r)

/-- The result list of one `search` call together with the state after its
access bookkeeping. -/
structure SearchResult where
  results : List SearchEntry
  state : EngineState
deriving DecidableEq, Repr

/-- `search(query, n_results, category, include_retracted)` with the
optional LLM reranking disabled (`rerank=False`, its default; the rerank
step itself is modelled separately as `llmRerank`): hybrid RRF-fused
candidates, then the retraction filter (or the `retracted=true` marking
when `include_retracted` is set), the trim to `n_results`, the access
touch, and the `confidence` output field. -/
def search (env : Env) (s : EngineState) (query : String) (nResults : Nat)
    (cat : Option String) (includeRetracted : Bool) : SearchResult :=
  let memories := fusedMemories env s query nResults cat includeRetracted
  let filtered :=
    if includeRetracted then
      memories.map (fun m =>
        if isRetractedEntry m then { m with retractedFlag := true } else m)
    else
      memories.filter (fun m => !isRetractedEntry m)
  let trimmed := filtered.take nResults
  let newRecs := touch env s.records (trimmed.map (fun m => m.id))
  let out := trimmed.map (fun m => { m with confidence := m.metadata.confidence })
  { results := out, state := { s with records := newRecs } }

/- ## Memory decay (`decay`) -/

/-- `new_confidence = round(confidence - 0.10, 2)`. -/
def newConf (r : MemoryRecord) : ℚ :=
  pyRound (r.meta.confidence - 1/10) 2

/-- The summary counts `decay` reports (the source omits
`total_evaluated` from the empty-store early return; the model reports 0
there). -/
structure DecayCounts where
  decayed : Nat
  deleted : Nat
  protectedCount : Nat
  skipped : Nat
  totalEvaluated : Nat
deriving DecidableEq, Repr

/-- Loop state of the decay pass: the four counters, the batched deletion
list, and the records as updated in-place during the loop. -/
structure DecayLoop where
  decayed : Nat
  deleted : Nat
  protectedCount : Nat
  skipped : Nat
  deleteIds : List String
  records : List MemoryRecord
deriving DecidableEq, Repr

/-- One iteration of the decay loop: pinned records are protected,
recently-accessed records are skipped, and every remaining record either
joins the batched deletion list (confidence below threshold; in a dry run
only the count moves) or has its decayed confidence persisted (a dry run
leaves it unchanged). -/
def decayStep (dry : Bool) (thr : ℚ) (cutoff : Nat) (acc : DecayLoop)
    (r : MemoryRecord) : DecayLoop :=
  if r.meta.pinned then
    { acc with protectedCount := acc.protectedCount + 1,
               records := acc.records ++ [r] }
  else if cutoff < r.meta.lastAccessed then
    { acc with skipped := acc.skipped + 1, records := acc.records ++ [r] }
  else if newConf r < thr then
    { acc with deleted := acc.deleted + 1,
               deleteIds := acc.deleteIds ++ (if dry then [] else [r.id]),
               records := acc.records ++ [r] }
  else
    { acc with decayed := acc.decayed + 1,
               records := acc.records ++
                 [if dry then r
                  else { r with meta := { r.meta with confidence := newConf r } }] }

/-- `decay(dry_run, threshold, age_days)`: evaluate every record against
`cutoff = now - age_days`, then apply the batched deletion to the vector
index and the keyword index (`_fts_delete` clears both the FTS rows and
the hash-ledger rows) — unless this is a dry run, which mutates nothing. -/
def decay (env : Env) (s : EngineState) (dry : Bool) (thr : ℚ)
    (ageDays : Nat) : DecayCounts × EngineState :=
  let cutoff := env.now - ageDays
  if s.records.length = 0 then (⟨0, 0, 0, 0, 0⟩, s)
  else
    let fin := s.records.foldl (decayStep dry thr cutoff)
      ⟨0, 0, 0, 0, [], []⟩
    let s' :=
      if ¬fin.deleteIds.isEmpty ∧ ¬dry then
        { records := fin.records.filter
            (fun r => !fin.deleteIds.contains r.id)
          fts := s.fts.filter (fun q => !fin.deleteIds.contains q.1)
          hashes := s.hashes.filter (fun q => !fin.deleteIds.contains q.1) }
      else { s with records := fin.records }
    (⟨fin.decayed, fin.deleted, fin.protectedCount, fin.skipped,
      s.records.length⟩, s')

/- ## Correction ledger (`correct`) -/

/-- `correct` fails (the CLI exits) when the id is unknown. -/
inductive CorrectError
  | notFound
deriving DecidableEq, Repr

/-- `correct(memory_id, corrected_text, reason)`: fetch the original,
create the correction record by a forced `add` carrying the back-link
metadata (`corrects_id`, the first 500 characters of the original text,
and the reason if given), then update the original's metadata with the
retraction fields and `replaced_by` pointing at the new record.  Returns
the new record's id and the final state. -/
def correct (env : Env) (s : EngineState) (memoryId text reason : String) :
    Except CorrectError (String × EngineState) :=
  match s.records.find? (fun r => decide (r.id = memoryId)) with
  | none => .error .notFound
  | some orig =>
    let patch : MetaPatch :=
      { correctsId := some memoryId
        originalText := some (strTake orig.text 500)
        correctionReason := if reason = "" then none else some reason }
    let res := add env s text orig.meta.category patch true
    let newMeta :=
      { orig.meta with
        retracted := true
        retractedAt := some env.now
        retractedByAgent := some env.agentId
        retractionReason :=
          if reason = "" then orig.meta.retractionReason else some reason
        replacedBy := some res.id }
    let s' :=
      { res.state with
        records := res.state.records.map (fun r =>
          if r.id = memoryId then { r with meta := newMeta } else r) }
    .ok (res.id, s')

/- ## LLM reranking (`_llm_rerank`) -/

/-- The possible outcomes of the external reranking call: no usable model
was detected, the generation raised, the response held no parseable JSON
integer array, or it held the integer array `rs`. -/
inductive RerankOutcome
  | noModel
  | generationError
  | unparseable
  | ratings (rs : List Nat)
deriving DecidableEq, Repr

/-- A reranker failure for a given candidate list: any non-array outcome,
or a ratings array whose length differs from the number of candidates
sent (`candidates[:top_n]`). -/
def rerankFailure (cands : List SearchEntry) (topN : Nat) :
    RerankOutcome → Bool
  | .noModel => true
  | .generationError => true
  | .unparseable => true
  | .ratings rs => rs.length != (cands.take topN).length

/-- `_llm_rerank`: on success, blend
`rerank_score = round(0.5 * rrf_score + 0.5 * rating / 5, 6)` over the top
`top_n` candidates, re-sort that prefix descending by the blended score
and append the untouched remainder; on any failure, return the input
unchanged. -/
def llmRerank (cands : List SearchEntry) (topN : Nat)
    (outcome : RerankOutcome) : List SearchEntry :=
  if cands.isEmpty then cands
  else
    match outcome with
    | .noModel => cands
    | .generationError => cands
    | .unparseable => cands
    | .ratings rs =>
      let toRerank := cands.take topN
      if rs.length != toRerank.length then cands
      else
        let blended := (toRerank.zip rs).map (fun q =>
          { q.1 with
            llmRating := some q.2
            rerankScore := some (pyRound
              (1/2 * q.1.rrfScore + 1/2 * ((q.2 : ℚ) / 5)) 6) })
        sortDescBy (fun e => e.rerankScore.getD 0) blended ++ cands.drop topN

/-- Provenance of a search result entry: it carries the id and the
metadata of some stored record. -/
def EntryFromStore (recs : List MemoryRecord) (e : SearchEntry) : Prop :=
  ∃ r ∈ recs, e.id = r.id ∧ e.metadata = r.meta

/- ## Decay pass classifiers (derived views of `decayStep`'s branches) -/

/-- A record the decay pass protects: `pinned=true`. -/
def isProtectedRec (r : MemoryRecord) : Bool :=
  r.meta.pinned

/-- A record the decay pass skips: recently accessed. -/
def isSkippedRec (cutoff : Nat) (r : MemoryRecord) : Bool :=
  if r.meta.pinned then false else decide (cutoff < r.meta.lastAccessed)

/-- A record the decay pass marks for deletion: evaluated, and decayed
confidence below the threshold. -/
def isDeletedRec (thr : ℚ) (cutoff : Nat) (r : MemoryRecord) : Bool :=
  if r.meta.pinned then false
  else if cutoff < r.meta.lastAccessed then false
  else decide (newConf r < thr)

/-- A record the decay pass decays in place: evaluated, and decayed
confidence still at or above the threshold. -/
def isDecayedRec (thr : ℚ) (cutoff : Nat) (r : MemoryRecord) : Bool :=
  if r.meta.pinned then false
  else if cutoff < r.meta.lastAccessed then false
  else !decide (newConf r < thr)

/-- A record with its confidence replaced by the decayed value. -/
def withNewConf (r : MemoryRecord) : MemoryRecord :=
  { r with meta := { r.meta with confidence := newConf r } }

/-- The per-record effect of the decay loop on the stored metadata. -/
def decayTransform (dry : Bool) (thr : ℚ) (cutoff : Nat)
    (r : MemoryRecord) : MemoryRecord :=
  if r.meta.pinned then r
  else if cutoff < r.meta.lastAccessed then r
  else if newConf r < thr then r
  else if dry then r
  else { r with meta := { r.meta with confidence := newConf r } }

/- ## Concrete instances (used to evaluate the model at specific inputs) -/

/-- A minimal environment: constant embeddings, zero distance (every pair
of texts is maximally similar), no keyword matches, identity hash
functions. -/
def envZero : Env :=
  { embed := fun _ => [0], dist := fun _ _ => 0, bm25 := fun _ _ => [],
    md5 := fun x => x, sha256 := fun x => x,
    agentId := "agent", workspaceName := "ws", now := 1000 }

def envCorrect : Env :=
  { envZero with md5 := fun _ => "B" }

def recA : MemoryRecord :=
  { id := "A", text := "old fact", embedding := [0],
    meta := baseMeta envCorrect "general" "old fact" }

def stateCorrect : EngineState :=
  { records := [recA], fts := [("A", "old fact")],
    hashes := [("A", "old fact")] }

/-- The (id, state) a successful `correct` call produces on
`stateCorrect`. -/
def correctOut : String × EngineState :=
  match correct envCorrect stateCorrect "A" "new fact" "" with
  | .ok p => p
  | .error _ => ("", stateCorrect)

/-- Environment where distances order records by the head of their
embedding and the keyword engine matches both stored records. -/
def envTrunc : Env :=
  { envZero with
    dist := fun _ v => v.headD 0
    bm25 := fun _ _ => [("r1", -2), ("r2", -1)] }

def recR1 : MemoryRecord :=
  { id := "r1", text := "alpha", embedding := [0],
    meta := { baseMeta envTrunc "general" "alpha" with retracted := true } }

def recR2 : MemoryRecord :=
  { id := "r2", text := "beta", embedding := [1],
    meta := baseMeta envTrunc "general" "beta" }

def stateTrunc : EngineState :=
  { records := [recR1, recR2], fts := [("r1", "alpha"), ("r2", "beta")],
    hashes := [("r1", "alpha"), ("r2", "beta")] }

def recZ : MemoryRecord :=
  { id := "rZ", text := "zz", embedding := [0],
    meta := baseMeta envZero "general" "zz" }

def stateAbsorb : EngineState :=
  { records := [recZ], fts := [("rZ", "zz")], hashes := [("rZ", "zz")] }

def stateEmpty : EngineState :=
  { records := [], fts := [], hashes := [] }

def recX : MemoryRecord :=
  { id := "x", text := "zz", embedding := [0],
    meta := baseMeta envZero "general" "zz" }

def stateNear : EngineState :=
  { records := [recX], fts := [("x", "zz")], hashes := [("x", "zz")] }

def envWarn : Env :=
  { envZero with dist := fun _ v => v.headD 0 }

def recY : MemoryRecord :=
  { id := "y", text := "zz", embedding := [1/10],
    meta := baseMeta envWarn "general" "zz" }

def stateWarn : EngineState :=
  { records := [recY], fts := [("y", "zz")], hashes := [("y", "zz")] }

def envLeak : Env :=
  { envZero with
    dist := fun _ v => v.headD 0
    bm25 := fun _ _ => [("rA", -2)] }

def recCatA : MemoryRecord :=
  { id := "rA", text := "alpha", embedding := [0],
    meta := baseMeta envLeak "a" "alpha" }

def recCatB : MemoryRecord :=
  { id := "rB", text := "beta", embedding := [0],
    meta := baseMeta envLeak "b" "beta" }

def stateLeak : EngineState :=
  { records := [recCatA, recCatB],
    fts := [("rA", "alpha"), ("rB", "beta")], hashes := [] }

def metaStale : Meta :=
  { baseMeta envZero "general" "dull" with
    confidence := 1/5
    lastAccessed := 10 }

def recStale : MemoryRecord :=
  { id := "rD", text := "dull", embedding := [0], meta := metaStale }

def stateStale : EngineState :=
  { records := [recStale], fts := [("rD", "dull")],
    hashes := [("rD", "dull")] }

def metaPlain : Meta :=
  baseMeta envZero "general" "h"

def entryD1 : SearchEntry :=
  { text := "d1", distance := 0, metadata := metaPlain, id := "d1" }

def entryD2 : SearchEntry :=
  { text := "d2", distance := 0, metadata := metaPlain, id := "d2" }

def entryD3 : SearchEntry :=
  { text := "d3", distance := 0, metadata := metaPlain, id := "d3" }

def recRetX : MemoryRecord :=
  { id := "x", text := "zz", embedding := [0],
    meta := { baseMeta envZero "general" "zz" with retracted := true } }

def stateRetExact : EngineState :=
  { records := [recRetX], fts := [("x", "zz")], hashes := [("x", "tt")] }

def stateRetNear : EngineState :=
  { records := [recRetX], fts := [("x", "zz")], hashes := [("x", "zz")] }

/- # Infrastructure lemmas -/

theorem insertBy_perm (le : α → α → Bool) (a : α) (l : List α) :
    (insertBy le a l).Perm (a :: l) := by
  induction l with
  | nil => simp [insertBy]
  | cons x xs ih =>
    simp only [insertBy]
    by_cases h : le a x
    · simp [h]
    · simp only [if_neg h]
      exact (ih.cons x).trans (List.Perm.swap a x xs)

theorem sortBy_perm (le : α → α → Bool) (l : List α) :
    (sortBy le l).Perm l := by
  induction l with
  | nil => simp [sortBy]
  | cons x xs ih =>
    exact (insertBy_perm le x (sortBy le xs)).trans (ih.cons x)

theorem mem_sortBy {le : α → α → Bool} {l : List α} {a : α} :
    a ∈ sortBy le l ↔ a ∈ l :=
  (sortBy_perm le l).mem_iff

theorem mem_sortDescBy {f : α → ℚ} {l : List α} {a : α} :
    a ∈ sortDescBy f l ↔ a ∈ l :=
  mem_sortBy

theorem mem_sortAscBy {f : α → ℚ} {l : List α} {a : α} :
    a ∈ sortAscBy f l ↔ a ∈ l :=
  mem_sortBy

theorem pairwise_insertBy {f : α → ℚ} {l : List α} (a : α)
    (h : l.Pairwise (fun x y => f y ≤ f x)) :
    (insertBy (fun x y => decide (f y ≤ f x)) a l).Pairwise
      (fun x y => f y ≤ f x) := by
  induction l with
  | nil => simp [insertBy]
  | cons x xs ih =>
    rw [List.pairwise_cons] at h
    simp only [insertBy]
    by_cases hc : f x ≤ f a
    · rw [if_pos (by simpa using hc)]
      rw [List.pairwise_cons]
      refine ⟨?_, List.pairwise_cons.2 h⟩
      intro b hb
      rcases List.mem_cons.1 hb with hb | hb
      · exact hb ▸ hc
      · exact le_trans (h.1 b hb) hc
    · rw [if_neg (by simpa using hc)]
      rw [List.pairwise_cons]
      refine ⟨?_, ih h.2⟩
      intro b hb
      rcases List.mem_cons.1 ((insertBy_perm _ a xs).mem_iff.1 hb) with rfl | hb
      · exact le_of_not_le hc
      · exact h.1 b hb

theorem pairwise_sortDescBy (f : α → ℚ) (l : List α) :
    (sortDescBy f l).Pairwise (fun x y => f y ≤ f x) := by
  induction l with
  | nil => simp [sortDescBy, sortBy]
  | cons x xs ih => exact pairwise_insertBy x ih

theorem nodup_map_eq {l : List α} {f : α → β} {a b : α}
    (h : (l.map f).Nodup) (ha : a ∈ l) (hb : b ∈ l) (hf : f a = f b) :
    a = b := by
  induction l with
  | nil => cases ha
  | cons x xs ih =>
    rw [List.map_cons, List.nodup_cons] at h
    rcases List.mem_cons.1 ha with ha1 | ha1 <;>
      rcases List.mem_cons.1 hb with hb1 | hb1
    · rw [ha1, hb1]
    · exfalso; apply h.1; rw [← ha1, hf]; exact List.mem_map_of_mem f hb1
    · exfalso; apply h.1; rw [← hb1, ← hf]; exact List.mem_map_of_mem f ha1
    · exact ih h.2 ha1 hb1

theorem any_map_eq {l : List α} {f : α → β} {p : β → Bool} :
    (l.map f).any p = l.any (fun a => p (f a)) := by
  induction l with
  | nil => rfl
  | cons x xs ih => simp [ih]

theorem find?_append_of_none {p : α → Bool} {l₁ l₂ : List α}
    (h : l₁.find? p = none) : (l₁ ++ l₂).find? p = l₂.find? p := by
  induction l₁ with
  | nil => rfl
  | cons x xs ih =>
    cases hp : p x with
    | true => simp [List.find?, hp] at h
    | false =>
      simp only [List.cons_append, List.find?, hp] at h ⊢
      exact ih h

/- ## Search provenance -/

theorem vectorQueryRecs_subset {env : Env} {recs : List MemoryRecord}
    {q : List ℚ} {k : Nat} {cat : Option String} {r : MemoryRecord}
    (h : r ∈ vectorQueryRecs env recs q k cat) : r ∈ recs := by
  unfold vectorQueryRecs at h
  have h1 := mem_sortAscBy.1 (List.take_subset _ _ h)
  cases cat with
  | none => exact h1
  | some c => exact List.mem_filter.1 h1 |>.1

theorem entryFrom_vectorEntries {env : Env} {s : EngineState}
    {qEmb : List ℚ} {k : Nat} {cat : Option String} {e : SearchEntry}
    (h : e ∈ vectorEntries env s qEmb k cat) : EntryFromStore s.records e := by
  unfold vectorEntries at h
  rcases List.mem_map.1 h with ⟨r, hr, rfl⟩
  exact ⟨r, vectorQueryRecs_subset hr, rfl, rfl⟩

theorem entryFrom_rrfFuse {recs : List MemoryRecord}
    {vec : List SearchEntry} {fts : List (String × ℚ)} {vw fw : ℚ} {n : Nat}
    (hvec : ∀ e ∈ vec, EntryFromStore recs e) :
    ∀ e ∈ rrfFuse recs vec fts vw fw n, EntryFromStore recs e := by
  intro e he
  unfold rrfFuse at he
  have h1 := mem_sortDescBy.1 (List.take_subset _ _ he)
  rcases List.mem_map.1 h1 with ⟨c, hc, rfl⟩
  have hfrom : EntryFromStore recs c := by
    rcases List.mem_append.1 hc with hc | hc
    · exact hvec c hc
    · rcases List.mem_filterMap.1 hc with ⟨did, _, hmap⟩
      rcases Option.map_eq_some'.1 hmap with ⟨r, hfind, rfl⟩
      have hid : r.id = did := by simpa using List.find?_some hfind
      exact ⟨r, List.mem_of_find?_eq_some hfind, by simp [hid], rfl⟩
  rcases hfrom with ⟨r, hr, h2, h3⟩
  exact ⟨r, hr, h2, h3⟩

theorem entryFrom_withFallbackScores {recs : List MemoryRecord}
    {l : List SearchEntry} (h : ∀ e ∈ l, EntryFromStore recs e) :
    ∀ i, ∀ e ∈ withFallbackScores i l, EntryFromStore recs e := by
  induction l with
  | nil => intro i e he; cases he
  | cons x xs ih =>
    intro i e he
    rcases List.mem_cons.1 he with rfl | he
    · rcases h x (List.mem_cons_self x xs) with ⟨r, hr, h2, h3⟩
      exact ⟨r, hr, h2, h3⟩
    · exact ih (fun e' he' => h e' (List.mem_cons_of_mem x he')) (i + 1) e he

theorem entryFrom_fusedMemories {env : Env} {s : EngineState}
    {query : String} {n : Nat} {cat : Option String} {inc : Bool} :
    ∀ e ∈ fusedMemories env s query n cat inc, EntryFromStore s.records e := by
  intro e he
  unfold fusedMemories at he
  by_cases hf : (ftsQuery env s query (n * (if inc then 2 else 3)) cat).isEmpty
  · rw [if_pos hf] at he
    exact entryFrom_withFallbackScores
      (fun e' he' => entryFrom_vectorEntries (List.take_subset _ _ he')) 0 e he
  · rw [if_neg hf] at he
    exact entryFrom_rrfFuse (fun e' he' => entryFrom_vectorEntries he') e he

theorem search_results_from {env : Env} {s : EngineState} {query : String}
    {n : Nat} {cat : Option String} {inc : Bool} {e : SearchEntry}
    (h : e ∈ (search env s query n cat inc).results) :
    EntryFromStore s.records e := by
  unfold search at h
  rcases List.mem_map.1 h with ⟨m, hm, rfl⟩
  have hm2 := List.take_subset _ _ hm
  have hfrom : EntryFromStore s.records m := by
    cases inc with
    | false =>
      rw [if_neg (by simp)] at hm2
      exact entryFrom_fusedMemories m (List.mem_filter.1 hm2).1
    | true =>
      rw [if_pos rfl] at hm2
      rcases List.mem_map.1 hm2 with ⟨m0, hm0, rfl⟩
      have h0 := entryFrom_fusedMemories m0 hm0
      rcases h0 with ⟨r, hr, h2, h3⟩
      by_cases hret : isRetractedEntry m0
      · rw [if_pos hret]; exact ⟨r, hr, h2, h3⟩
      · rw [if_neg hret]; exact ⟨r, hr, h2, h3⟩
  rcases hfrom with ⟨r, hr, h2, h3⟩
  exact ⟨r, hr, h2, h3⟩

theorem search_default_not_retracted {env : Env} {s : EngineState}
    {query : String} {n : Nat} {cat : Option String} {e : SearchEntry}
    (h : e ∈ (search env s query n cat false).results) :
    e.metadata.retracted = false := by
  unfold search at h
  rcases List.mem_map.1 h with ⟨m, hm, rfl⟩
  have hm2 := List.take_subset _ _ hm
  rw [if_neg (by simp)] at hm2
  have := (List.mem_filter.1 hm2).2
  simpa [isRetractedEntry] using this

/-- Default search never returns the id of a retracted record. -/
theorem search_excludes_retracted {env : Env} {s : EngineState}
    {query : String} {n : Nat} {cat : Option String} {r : MemoryRecord}
    (hwf : s.wf) (hr : r ∈ s.records) (hret : r.meta.retracted = true) :
    r.id ∉ (search env s query n cat false).results.map
      (fun e => e.id) := by
  intro hmem
  rcases List.mem_map.1 hmem with ⟨e, he, hid⟩
  rcases search_results_from he with ⟨r', hr', h2, h3⟩
  have : r' = r := nodup_map_eq hwf hr' hr (h2 ▸ hid)
  have hret' := search_default_not_retracted he
  rw [h3, this, hret] at hret'
  cases hret'

/-- With `include_retracted`, a returned retracted record is flagged. -/
theorem search_retracted_flagged {env : Env} {s : EngineState}
    {query : String} {n : Nat} {cat : Option String} {e : SearchEntry}
    (h : e ∈ (search env s query n cat true).results)
    (hret : e.metadata.retracted = true) : e.retractedFlag = true := by
  unfold search at h
  rcases List.mem_map.1 h with ⟨m, hm, rfl⟩
  have hm2 := List.take_subset _ _ hm
  rw [if_pos rfl] at hm2
  rcases List.mem_map.1 hm2 with ⟨m0, _, rfl⟩
  by_cases hr0 : isRetractedEntry m0
  · rw [if_pos hr0]
  · rw [if_neg hr0]
    exfalso
    apply hr0
    rw [if_neg hr0] at hret
    simpa [isRetractedEntry] using hret

/- ## Near-duplicate scan -/

theorem nearDupLoop_of_no_hit {thr : ℚ} {items : List (String × ℚ)}
    (h : ∀ p ∈ items, 1 - p.2 < thr) (w : Bool) :
    nearDupLoop thr w items =
      (none, w || items.any (fun p => decide (88/100 ≤ 1 - p.2))) := by
  induction items generalizing w with
  | nil => simp [nearDupLoop]
  | cons q rest ih =>
    obtain ⟨did, d⟩ := q
    have hq := h (did, d) (List.mem_cons_self _ rest)
    have hrest := fun p hp => h p (List.mem_cons_of_mem (did, d) hp)
    simp only [nearDupLoop]
    rw [if_neg (not_le.2 hq)]
    by_cases h88 : (88 : ℚ)/100 ≤ 1 - d
    · rw [if_pos h88, ih hrest true]
      simp [h88]
    · rw [if_neg h88, ih hrest w]
      simp [h88]

theorem nearDupLoop_hit {thr : ℚ} {items : List (String × ℚ)}
    (h : ∃ p ∈ items, thr ≤ 1 - p.2) (w : Bool) :
    ∃ p ∈ items, (nearDupLoop thr w items).1 = some (p.1, 1 - p.2) ∧
      thr ≤ 1 - p.2 := by
  induction items generalizing w with
  | nil =>
    rcases h with ⟨p, hp, _⟩
    cases hp
  | cons q rest ih =>
    obtain ⟨did, d⟩ := q
    by_cases hq : thr ≤ 1 - d
    · exact ⟨(did, d), List.mem_cons_self _ _, by simp [nearDupLoop, hq], hq⟩
    · have h' : ∃ p ∈ rest, thr ≤ 1 - p.2 := by
        rcases h with ⟨p, hp, hple⟩
        rcases List.mem_cons.1 hp with rfl | hp
        · exact absurd hple hq
        · exact ⟨p, hp, hple⟩
      by_cases h88 : (88 : ℚ)/100 ≤ 1 - d
      · rcases ih h' true with ⟨p, hp, heq, hple⟩
        exact ⟨p, List.mem_cons_of_mem _ hp,
          by simp only [nearDupLoop]; rw [if_neg hq, if_pos h88]; exact heq,
          hple⟩
      · rcases ih h' w with ⟨p, hp, heq, hple⟩
        exact ⟨p, List.mem_cons_of_mem _ hp,
          by simp only [nearDupLoop]; rw [if_neg hq, if_neg h88]; exact heq,
          hple⟩

theorem checkNearDuplicate_hit {env : Env} {recs : List MemoryRecord}
    {emb : List ℚ} {thr : ℚ}
    (h : ∃ r ∈ vectorQueryRecs env recs emb 3 none,
      thr ≤ 1 - env.dist emb r.embedding) :
    ∃ r ∈ vectorQueryRecs env recs emb 3 none,
      (checkNearDuplicate env recs emb thr).1 =
        some (r.id, 1 - env.dist emb r.embedding) ∧
      thr ≤ 1 - env.dist emb r.embedding := by
  have hne : ¬recs.length = 0 := by
    rcases h with ⟨r, hr, _⟩
    have := vectorQueryRecs_subset hr
    intro h0
    rw [List.length_eq_zero] at h0
    rw [h0] at this
    cases this
  unfold checkNearDuplicate
  rw [if_neg hne]
  have hpairs : ∃ p ∈ (vectorQueryRecs env recs emb 3 none).map
      (fun r => (r.id, env.dist emb r.embedding)), thr ≤ 1 - p.2 := by
    rcases h with ⟨r, hr, hle⟩
    exact ⟨(r.id, env.dist emb r.embedding),
      List.mem_map_of_mem _ hr, hle⟩
  rcases nearDupLoop_hit hpairs false with ⟨p, hp, heq, hple⟩
  rcases List.mem_map.1 hp with ⟨r, hr, rfl⟩
  exact ⟨r, hr, heq, hple⟩

theorem checkNearDuplicate_of_no_hit {env : Env} {recs : List MemoryRecord}
    {emb : List ℚ} {thr : ℚ}
    (h : ∀ r ∈ vectorQueryRecs env recs emb 3 none,
      1 - env.dist emb r.embedding < thr) :
    (checkNearDuplicate env recs emb thr).1 = none ∧
    (checkNearDuplicate env recs emb thr).2 =
      (!recs.isEmpty && (vectorQueryRecs env recs emb 3 none).any
        (fun r => decide (88/100 ≤ 1 - env.dist emb r.embedding))) := by
  unfold checkNearDuplicate
  by_cases h0 : recs.length = 0
  · rw [if_pos h0]
    have : recs = [] := List.length_eq_zero.1 h0
    subst this
    simp [vectorQueryRecs, sortAscBy, sortBy]
  · rw [if_neg h0]
    have hpairs : ∀ p ∈ (vectorQueryRecs env recs emb 3 none).map
        (fun r => (r.id, env.dist emb r.embedding)), 1 - p.2 < thr := by
      intro p hp
      rcases List.mem_map.1 hp with ⟨r, hr, rfl⟩
      exact h r hr
    rw [nearDupLoop_of_no_hit hpairs false]
    have hemp : recs.isEmpty = false := by
      cases recs with
      | nil => simp at h0
      | cons a l => rfl
    constructor
    · rfl
    · simp only [hemp, Bool.not_false, Bool.true_and, Bool.false_or]
      exact any_map_eq

/- ## Decay fold characterisation -/

theorem decay_foldl_spec (dry : Bool) (thr : ℚ) (cutoff : Nat)
    (l : List MemoryRecord) (acc : DecayLoop) :
    l.foldl (decayStep dry thr cutoff) acc =
      { decayed := acc.decayed + (l.filter (isDecayedRec thr cutoff)).length
        deleted := acc.deleted + (l.filter (isDeletedRec thr cutoff)).length
        protectedCount :=
          acc.protectedCount + (l.filter isProtectedRec).length
        skipped := acc.skipped + (l.filter (isSkippedRec cutoff)).length
        deleteIds := acc.deleteIds ++
          (if dry then []
           else (l.filter (isDeletedRec thr cutoff)).map (fun r => r.id))
        records := acc.records ++ l.map (decayTransform dry thr cutoff) } := by
  induction l generalizing acc with
  | nil => cases acc; simp
  | cons r rest ih =>
    rw [List.foldl_cons, ih]
    cases hp : r.meta.pinned with
    | true =>
      simp [decayStep, decayTransform, isProtectedRec, isSkippedRec,
        isDeletedRec, isDecayedRec, hp, List.filter_cons, Nat.add_assoc,
        List.append_assoc]
      omega
    | false =>
      by_cases hsk : cutoff < r.meta.lastAccessed
      · simp [decayStep, decayTransform, isProtectedRec, isSkippedRec,
          isDeletedRec, isDecayedRec, hp, hsk, List.filter_cons,
          Nat.add_assoc, List.append_assoc]
        omega
      · by_cases hdel : newConf r < thr
        · cases hd : dry with
          | true =>
            simp [decayStep, decayTransform, isProtectedRec, isSkippedRec,
              isDeletedRec, isDecayedRec, hp, hsk, hdel, hd,
              List.filter_cons, Nat.add_assoc, List.append_assoc]
            omega
          | false =>
            simp [decayStep, decayTransform, isProtectedRec, isSkippedRec,
              isDeletedRec, isDecayedRec, hp, hsk, hdel, hd,
              List.filter_cons, Nat.add_assoc, List.append_assoc]
            omega
        · simp [decayStep, decayTransform, isProtectedRec, isSkippedRec,
            isDeletedRec, isDecayedRec, hp, hsk, hdel, List.filter_cons,
            Nat.add_assoc, List.append_assoc]
          omega

theorem decayTransform_dry (thr : ℚ) (cutoff : Nat) (r : MemoryRecord) :
    decayTransform true thr cutoff r = r := by
  unfold decayTransform
  split_ifs with h1 h2 h3 h4
  · rfl
  · rfl
  · rfl
  · rfl
  · exact absurd rfl h4

theorem map_decayTransform_dry (thr : ℚ) (cutoff : Nat)
    (l : List MemoryRecord) : l.map (decayTransform true thr cutoff) = l := by
  induction l with
  | nil => rfl
  | cons x xs ih => simp [decayTransform_dry, ih]

/-- A dry decay pass returns the counts of a real pass over the same
state and leaves the state untouched. -/
theorem decay_dry (env : Env) (s : EngineState) (thr : ℚ) (age : Nat) :
    decay env s true thr age = ((decay env s false thr age).1, s) := by
  unfold decay
  by_cases h0 : s.records.length = 0
  · simp [h0]
  · simp only [h0, if_false, decay_foldl_spec, map_decayTransform_dry,
      if_true, List.nil_append, List.append_nil, if_neg, List.isEmpty_nil,
      not_true, false_and, and_false, ite_false, ite_true]

/-- Closed form of a non-dry decay pass on a non-empty store. -/
theorem decay_false_eq (env : Env) (s : EngineState) (thr : ℚ) (age : Nat)
    (hne : ¬s.records.length = 0) :
    decay env s false thr age =
      ({ decayed :=
           (s.records.filter (isDecayedRec thr (env.now - age))).length
         deleted :=
           (s.records.filter (isDeletedRec thr (env.now - age))).length
         protectedCount := (s.records.filter isProtectedRec).length
         skipped := (s.records.filter (isSkippedRec (env.now - age))).length
         totalEvaluated := s.records.length },
       if ((s.records.filter (isDeletedRec thr (env.now - age))).map
            (fun x => x.id)).isEmpty then
         { s with
           records :=
             s.records.map (decayTransform false thr (env.now - age)) }
       else
         { records := (s.records.map (decayTransform false thr
             (env.now - age))).filter (fun x =>
               !((s.records.filter (isDeletedRec thr (env.now - age))).map
                 (fun y => y.id)).contains x.id)
           fts := s.fts.filter (fun q =>
             !((s.records.filter (isDeletedRec thr (env.now - age))).map
               (fun y => y.id)).contains q.1)
           hashes := s.hashes.filter (fun q =>
             !((s.records.filter (isDeletedRec thr (env.now - age))).map
               (fun y => y.id)).contains q.1) }) := by
  unfold decay
  rw [if_neg hne, decay_foldl_spec]
  by_cases hD : ((s.records.filter (isDeletedRec thr
      (env.now - age))).map (fun x => x.id)).isEmpty
  · simp [hD]
  · simp [hD]

/- ## `add` and `correct` unfoldings -/

theorem add_force_eq (env : Env) (s : EngineState) (text category : String)
    (patch : MetaPatch) :
    add env s text category patch true =
      insertRecord env s text category patch (env.embed text) false := by
  simp [add]

theorem add_exact_hit (env : Env) (s : EngineState) (text category : String)
    (patch : MetaPatch) {e : String}
    (hL : hashLookup s.hashes (normHash env text) = some e) :
    add env s text category patch false =
      { id := e, state := s, embedCalled := false, warned := false,
        inserted := false } := by
  simp [add, hL]

theorem add_near_hit (env : Env) (s : EngineState) (text category : String)
    (patch : MetaPatch) {p : String × ℚ}
    (hL : hashLookup s.hashes (normHash env text) = none)
    (hN : (checkNearDuplicate env s.records (env.embed text) (95/100)).1 =
      some p) :
    add env s text category patch false =
      { id := p.1, state := s, embedCalled := true,
        warned := (checkNearDuplicate env s.records (env.embed text)
          (95/100)).2,
        inserted := false } := by
  simp [add, hL, hN]

theorem add_insert (env : Env) (s : EngineState) (text category : String)
    (patch : MetaPatch)
    (hL : hashLookup s.hashes (normHash env text) = none)
    (hN : (checkNearDuplicate env s.records (env.embed text) (95/100)).1 =
      none) :
    add env s text category patch false =
      insertRecord env s text category patch (env.embed text)
        (checkNearDuplicate env s.records (env.embed text) (95/100)).2 := by
  simp [add, hL, hN]

/-- A successful `correct` call in explicit form. -/
theorem correct_eq_of_find {env : Env} {s : EngineState}
    {memoryId text reason : String} {orig : MemoryRecord}
    (hfind : s.records.find? (fun r => decide (r.id = memoryId)) =
      some orig) :
    correct env s memoryId text reason =
      (let res := add env s text orig.meta.category
        { correctsId := some memoryId
          originalText := some (strTake orig.text 500)
          correctionReason := if reason = "" then none else some reason }
        true
      let newMeta :=
        { orig.meta with
          retracted := true
          retractedAt := some env.now
          retractedByAgent := some env.agentId
          retractionReason :=
            if reason = "" then orig.meta.retractionReason else some reason
          replacedBy := some res.id }
      .ok (res.id,
        { res.state with
          records := res.state.records.map (fun r =>
            if r.id = memoryId then { r with meta := newMeta } else r) })) := by
  unfold correct
  rw [hfind]

theorem updated_ids (memoryId : String) (M : Meta)
    (l : List MemoryRecord) :
    (l.map (fun r =>
      if r.id = memoryId then { r with meta := M } else r)).map
        (fun r => r.id) = l.map (fun r => r.id) := by
  induction l with
  | nil => rfl
  | cons x xs ih => by_cases h : x.id = memoryId <;> simp [h, ih]

/-- After rewriting one record's metadata to a retracted `M`, default
search never returns its id, and `include_retracted` search flags it. -/
theorem search_after_retract (env : Env) (recsPre : List MemoryRecord)
    (ftsRows hashRows : List (String × String)) (memoryId : String)
    (M : Meta) (orig : MemoryRecord) (hmem : orig ∈ recsPre)
    (hido : orig.id = memoryId) (hM : M.retracted = true)
    (hwf : (recsPre.map (fun r => r.id)).Nodup) :
    (∀ q n cat, memoryId ∉
      (search env
        ⟨recsPre.map (fun r =>
          if r.id = memoryId then { r with meta := M } else r),
         ftsRows, hashRows⟩ q n cat false).results.map (fun e => e.id)) ∧
    (∀ q n cat, ∀ e ∈ (search env
        ⟨recsPre.map (fun r =>
          if r.id = memoryId then { r with meta := M } else r),
         ftsRows, hashRows⟩ q n cat true).results,
      e.id = memoryId → e.retractedFlag = true) := by
  have hwf' : EngineState.wf
      ⟨recsPre.map (fun r =>
        if r.id = memoryId then { r with meta := M } else r),
       ftsRows, hashRows⟩ := by
    show ((recsPre.map (fun r =>
      if r.id = memoryId then { r with meta := M } else r)).map
        (fun r => r.id)).Nodup
    rw [updated_ids]
    exact hwf
  have hmem' : ({ orig with meta := M } : MemoryRecord) ∈
      recsPre.map (fun r =>
        if r.id = memoryId then { r with meta := M } else r) := by
    have h := List.mem_map_of_mem
      (fun r => if r.id = memoryId then { r with meta := M } else r) hmem
    have hfo : (fun r =>
        if r.id = memoryId then { r with meta := M } else r) orig =
        ({ orig with meta := M } : MemoryRecord) := by
      simp [hido]
    rwa [hfo] at h
  constructor
  · intro q n cat
    have h := @search_excludes_retracted env _ q n cat _ hwf' hmem' hM
    simpa [hido] using h
  · intro q n cat e he heid
    apply search_retracted_flagged he
    rcases search_results_from he with ⟨r'', hr'', hid'', hmeta''⟩
    have heq : r'' = { orig with meta := M } := by
      apply nodup_map_eq hwf' hr'' hmem'
      rw [← hid'', heid]
      simp [hido]
    rw [hmeta'', heq]
    exact hM

/- # Claim theorems -/

/-- C1: after `correct(memory_id, corrected_text)` succeeds on an existing
record, the original record has `retracted=true` and `replaced_by` equal to
the new record's id, the new record's `corrects_id` equals `memory_id`
(bidirectional link consistency), default `search()` never returns the
original record's id, and `search(include_retracted=true)` returns it (if
at all) flagged `retracted=true`. -/
theorem correct_retraction_invariant (env : Env) (s : EngineState)
    (memoryId text reason newId : String) (s' : EngineState)
    (hwf : s.wf)
    (hok : correct env s memoryId text reason = .ok (newId, s'))
    (hfresh : newId ∉ s.ids) :
    (∃ orig ∈ s'.records, orig.id = memoryId ∧ orig.meta.retracted = true ∧
      orig.meta.replacedBy = some newId) ∧
    (∃ corr ∈ s'.records, corr.id = newId ∧
      corr.meta.correctsId = some memoryId) ∧
    (∀ q n cat, memoryId ∉
      (search env s' q n cat false).results.map (fun e => e.id)) ∧
    (∀ q n cat, ∀ e ∈ (search env s' q n cat true).results,
      e.id = memoryId → e.retractedFlag = true) := by
  cases hfind : s.records.find? (fun r => decide (r.id = memoryId)) with
  | none =>
    unfold correct at hok
    rw [hfind] at hok
    cases hok
  | some orig =>
    rw [correct_eq_of_find hfind, add_force_eq] at hok
    simp only [insertRecord, Except.ok.injEq, Prod.mk.injEq] at hok
    obtain ⟨hid, hs⟩ := hok
    have hmemOrig : orig ∈ s.records := List.mem_of_find?_eq_some hfind
    have hidOrig : orig.id = memoryId := by
      simpa using List.find?_some hfind
    have hmidmem : memoryId ∈ s.ids := by
      rw [← hidOrig]
      exact List.mem_map_of_mem _ hmemOrig
    have hne : memoryId ≠ newId := by
      intro h
      exact hfresh (h ▸ hmidmem)
    subst hid
    subst hs
    have hwfPre : ∀ x : MemoryRecord, x.id ∉ s.ids →
        ((s.records ++ [x]).map (fun r => r.id)).Nodup := by
      intro x hx
      rw [List.map_append, List.nodup_append]
      refine ⟨hwf, List.nodup_singleton _, ?_⟩
      intro a ha hb
      simp at hb
      subst hb
      exact hx ha
    refine ⟨⟨_, List.mem_map_of_mem _ (List.mem_append_left _ hmemOrig),
        by simp [hidOrig], by simp [hidOrig], by simp [hidOrig]⟩,
      ⟨_, List.mem_map_of_mem _
          (List.mem_append_right _ (List.mem_singleton_self _)),
        by simp [Ne.symm hne], ?_⟩, ?_, ?_⟩
    · rw [if_neg (fun h => hne h.symm)]
      rfl
    · exact (search_after_retract env _ _ _ memoryId _ orig
        (List.mem_append_left _ hmemOrig) hidOrig rfl
        (hwfPre _ hfresh)).1
    · exact (search_after_retract env _ _ _ memoryId _ orig
        (List.mem_append_left _ hmemOrig) hidOrig rfl
        (hwfPre _ hfresh)).2

/-- C1 witness: on a one-record store, after `correct("A", "new fact")`
succeeds, default search never returns `"A"`. -/
theorem correct_retraction_invariant_witness :
    "A" ∉ (search envCorrect correctOut.2 "query" 5 none
      false).results.map (fun e => e.id) :=
  (correct_retraction_invariant envCorrect stateCorrect "A" "new fact" ""
    correctOut.1 correctOut.2
    (by unfold EngineState.wf EngineState.ids; decide) rfl
    (by decide)).2.2.1 "query" 5 none

/-- C7: `decay(dry_run=true)` mutates nothing: the state is unchanged, the
summary counts equal those a non-dry pass over the same state would
report, and running the dry pass twice yields identical output. -/
theorem decay_dry_run_pure (env : Env) (s : EngineState) (thr : ℚ)
    (age : Nat) :
    (decay env s true thr age).2 = s ∧
    (decay env s true thr age).1 = (decay env s false thr age).1 ∧
    decay env (decay env s true thr age).2 true thr age =
      decay env s true thr age := by
  have h := decay_dry env s thr age
  refine ⟨?_, ?_, ?_⟩
  · rw [h]
  · rw [h]
  · simp [h]

/-- C9: whenever the reranker fails — no model available, the generation
call raising, an unparseable response, or a ratings array whose length
differs from the number of candidates sent — `_llm_rerank` returns the
input candidate list unchanged instead of raising. -/
theorem rerank_failure_returns_input (cands : List SearchEntry)
    (topN : Nat) (outcome : RerankOutcome)
    (h : rerankFailure cands topN outcome = true) :
    llmRerank cands topN outcome = cands := by
  unfold llmRerank
  by_cases hc : cands.isEmpty
  · rw [if_pos hc]
  · rw [if_neg hc]
    cases outcome with
    | noModel => rfl
    | generationError => rfl
    | unparseable => rfl
    | ratings rs =>
      unfold rerankFailure at h
      exact if_pos h

/-- C9 witness: a one-candidate list with the no-model failure comes back
unchanged. -/
theorem rerank_failure_returns_input_witness :
    llmRerank [entryD1] 10 RerankOutcome.noModel = [entryD1] :=
  rerank_failure_returns_input [entryD1] 10 RerankOutcome.noModel rfl

/-- C2 (code-bug exhibit): with one retracted and one live record, both
returned by both oversampled sources, `search(n_results=1)` with default
retraction filtering returns zero records even though the fused
oversampled pool contains a non-retracted record — because `_rrf_fuse`
truncates to `n_results` before the retraction filter runs. -/
theorem search_truncation_bug :
    (search envTrunc stateTrunc "qq" 1 none false).results = [] ∧
    "r2" ∈ (vectorQueryRecs envTrunc stateTrunc.records
      (envTrunc.embed "qq") 3 none).map (fun r => r.id) ∧
    "r2" ∈ (ftsQuery envTrunc stateTrunc "qq" 3 none).map Prod.fst ∧
    ((stateTrunc.records.find? (fun r => decide (r.id = "r2"))).map
      (fun r => r.meta.retracted)) = some false := by
  refine ⟨by decide, by decide, by decide, by decide⟩

/-- C5 (code-bug exhibit): `search(..., category="b")` returns the record
`"rA"` of category `"a"`, which entered the fused set through the keyword
source — `_fts_query` accepts the `category` argument but never applies
it. -/
theorem fts_category_filter_bug :
    "rA" ∈ (search envLeak stateLeak "qq" 5 (some "b")
      false).results.map (fun e => e.id) ∧
    ((stateLeak.records.find? (fun r => decide (r.id = "rA"))).map
      (fun r => r.meta.category)) = some "a" := by
  refine ⟨by decide, by decide⟩

/-- C8 counterexample: the stored `rrf_score` is not the exact RRF
formula: for vector list `[d1,d2,d3]`, keyword list `[d2,d1]` and weights
`(0.5, 0.5)`, `d1` (vector rank 0, keyword rank 1) is stored with score
`0.016530`, which differs from `0.5/(60+0) + 0.5/(60+1)` — the code
rounds the fused score to 6 decimal places before storing and sorting. -/
theorem rrf_score_formula_cex :
    ((rrfFuse [] [entryD1, entryD2, entryD3] [("d2", -5), ("d1", -4)]
        (1/2) (1/2) 10).find? (fun e => decide (e.id = "d1"))).map
      (fun e => e.rrfScore) = some (1653/100000) ∧
    (1653/100000 : ℚ) ≠ (1/2)/(60+0) + (1/2)/(60+1) := by
  refine ⟨by decide, by decide⟩

/-- C8 (amended): every fused entry's stored score is the spec's RRF
formula — `vw/(60+rank_vec) + fw/(60+rank_fts)` with rank 0 best and
synthetic rank `other list length + 100` for missing ids — rounded to 6
decimal places as the code stores it; the fused output is sorted
descending by that score; and on the concrete example (vector `[d1,d2,d3]`,
keyword `[d2,d1]`, weights `(0.5, 0.5)`), `score(d1) = score(d2)` and both
exceed `score(d3)`. -/
theorem rrf_score_amended :
    (∀ (recs : List MemoryRecord) (vec : List SearchEntry)
        (fts : List (String × ℚ)) (vw fw : ℚ) (n : Nat),
      ∀ e ∈ rrfFuse recs vec fts vw fw n,
        e.rrfScore = pyRound (claimedRrfScore (vec.map (fun x => x.id))
          (fts.map Prod.fst) vw fw e.id) 6) ∧
    (∀ (recs : List MemoryRecord) (vec : List SearchEntry)
        (fts : List (String × ℚ)) (vw fw : ℚ) (n : Nat),
      (rrfFuse recs vec fts vw fw n).Pairwise
        (fun a b => b.rrfScore ≤ a.rrfScore)) ∧
    ((rrfFuse [] [entryD1, entryD2, entryD3] [("d2", -5), ("d1", -4)]
        (1/2) (1/2) 10).find? (fun e => decide (e.id = "d1"))).map
      (fun e => e.rrfScore) = some (1653/100000) ∧
    ((rrfFuse [] [entryD1, entryD2, entryD3] [("d2", -5), ("d1", -4)]
        (1/2) (1/2) 10).find? (fun e => decide (e.id = "d2"))).map
      (fun e => e.rrfScore) = some (1653/100000) ∧
    ((rrfFuse [] [entryD1, entryD2, entryD3] [("d2", -5), ("d1", -4)]
        (1/2) (1/2) 10).find? (fun e => decide (e.id = "d3"))).map
      (fun e => e.rrfScore) = some (11151/1000000) ∧
    (11151/1000000 : ℚ) < 1653/100000 := by
  refine ⟨?_, ?_, by decide, by decide, by decide, by decide⟩
  · intro recs vec fts vw fw n e he
    unfold rrfFuse at he
    have h1 := mem_sortDescBy.1 (List.take_subset _ _ he)
    rcases List.mem_map.1 h1 with ⟨c, _, rfl⟩
    rfl
  · intro recs vec fts vw fw n
    exact (pairwise_sortDescBy _ _).sublist (List.take_sublist _ _)

/-- C8 witness: the fused entry for `d1` in the concrete example carries
exactly the rounded formula score. -/
theorem rrf_score_amended_witness :
    ({ entryD1 with rrfScore := (1653/100000 : ℚ) } : SearchEntry).rrfScore
      = pyRound (claimedRrfScore ["d1", "d2", "d3"] ["d2", "d1"] (1/2)
        (1/2) "d1") 6 :=
  rrf_score_amended.1 [] [entryD1, entryD2, entryD3]
    [("d2", -5), ("d1", -4)] (1/2) (1/2) 10
    { entryD1 with rrfScore := (1653/100000 : ℚ) } (by decide)

/-- C3 counterexample: in a store holding a near-duplicate (similarity
1 ≥ 0.95) of `"tt"` under a different content hash, `add("tt")` twice
returns the same id both times, yet the second call does call the
embedding provider — refuting the claim's "no new embedding call". -/
theorem add_idempotent_embed_cex :
    (add envZero (add envZero stateAbsorb "tt" "general" {} false).state
      "tt" "general" {} false).id =
      (add envZero stateAbsorb "tt" "general" {} false).id ∧
    (add envZero (add envZero stateAbsorb "tt" "general" {} false).state
      "tt" "general" {} false).embedCalled = true := by
  refine ⟨by decide, by decide⟩

/-- C3 (amended): `add(t, c)` immediately followed by `add(t, c)` (no
force) returns the same id both times, the second call writes nothing
(the state, hence the store size, is unchanged), and — whenever the first
call actually inserted — the second call makes no embedding call either
(exact-hash hit); when both calls are absorbed by a pre-existing
duplicate, the second call re-embeds before being absorbed but still
writes nothing.  (The freshness hypothesis rules out the generated id
colliding with an existing hash-ledger key.) -/
theorem add_idempotent_no_force (env : Env) (s : EngineState)
    (t c : String)
    (hfresh : env.md5 (t ++ ":" ++ c ++ ":" ++ toString env.now) ∉
      s.hashes.map Prod.fst) :
    (add env (add env s t c {} false).state t c {} false).id =
      (add env s t c {} false).id ∧
    (add env (add env s t c {} false).state t c {} false).state =
      (add env s t c {} false).state ∧
    (add env (add env s t c {} false).state t c {} false).inserted =
      false ∧
    ((add env s t c {} false).inserted = true →
      (add env (add env s t c {} false).state t c {} false).embedCalled =
        false) := by
  cases hL : hashLookup s.hashes (normHash env t) with
  | some e =>
    simp [add_exact_hit env s t c {} hL]
  | none =>
    cases hN : (checkNearDuplicate env s.records (env.embed t)
        (95/100)).1 with
    | some p =>
      simp [add_near_hit env s t c {} hL hN]
    | none =>
      rw [add_insert env s t c {} hL hN]
      set mid := env.md5 (t ++ ":" ++ c ++ ":" ++ toString env.now)
        with hmid
      have hany : (s.hashes.any (fun q => decide (q.1 = mid))) = false := by
        cases hA : s.hashes.any (fun q => decide (q.1 = mid)) with
        | false => rfl
        | true =>
          exfalso
          rcases List.any_eq_true.1 hA with ⟨q, hq, hq2⟩
          rw [decide_eq_true_eq] at hq2
          exact hfresh (hq2 ▸ List.mem_map_of_mem Prod.fst hq)
      have hfind0 : s.hashes.find? (fun q =>
          decide (q.2 = normHash env t)) = none := by
        unfold hashLookup at hL
        exact Option.map_eq_none'.1 hL
      have hlook2 : hashLookup (insertRecord env s t c {} (env.embed t)
          (checkNearDuplicate env s.records (env.embed t)
            (95/100)).2).state.hashes (normHash env t) = some mid := by
        simp only [insertRecord, hany, Bool.false_eq_true, if_false]
        unfold hashLookup
        rw [find?_append_of_none hfind0]
        simp [List.find?]
      rw [add_exact_hit env _ t c {} hlook2]
      exact ⟨rfl, rfl, rfl, fun _ => rfl⟩

/-- C3 witness: on an empty store the first `add` inserts and the second
is an exact-hash hit — same id, no write, no embedding call. -/
theorem add_idempotent_no_force_witness :
    (add envZero (add envZero stateEmpty "hi" "general" {} false).state
      "hi" "general" {} false).id =
      (add envZero stateEmpty "hi" "general" {} false).id ∧
    (add envZero (add envZero stateEmpty "hi" "general" {} false).state
      "hi" "general" {} false).state =
      (add envZero stateEmpty "hi" "general" {} false).state ∧
    (add envZero (add envZero stateEmpty "hi" "general" {} false).state
      "hi" "general" {} false).inserted = false ∧
    (add envZero (add envZero stateEmpty "hi" "general" {} false).state
      "hi" "general" {} false).embedCalled = false := by
  have h := add_idempotent_no_force envZero stateEmpty "hi" "general"
    (by decide)
  exact ⟨h.1, h.2.1, h.2.2.1, h.2.2.2 (by decide)⟩

/-- C4: in a non-forced `add` with no exact hash hit, the 3 nearest
neighbours of the new embedding are examined with
similarity = 1 − cosine distance: if any neighbour's similarity reaches
0.95, `add` returns that neighbour's id and writes nothing to any index;
if no neighbour reaches 0.95 but one lies in `[0.88, 0.95)`, the
non-fatal warning is raised and the insertion still proceeds, creating a
new record. -/
theorem add_near_duplicate_gate (env : Env) (s : EngineState)
    (t c : String)
    (hL : hashLookup s.hashes (normHash env t) = none) :
    ((∃ r ∈ vectorQueryRecs env s.records (env.embed t) 3 none,
        95/100 ≤ 1 - env.dist (env.embed t) r.embedding) →
      (add env s t c {} false).state = s ∧
      (add env s t c {} false).inserted = false ∧
      ∃ r ∈ vectorQueryRecs env s.records (env.embed t) 3 none,
        (add env s t c {} false).id = r.id ∧
        95/100 ≤ 1 - env.dist (env.embed t) r.embedding) ∧
    ((∀ r ∈ vectorQueryRecs env s.records (env.embed t) 3 none,
        1 - env.dist (env.embed t) r.embedding < 95/100) →
      (∃ r ∈ vectorQueryRecs env s.records (env.embed t) 3 none,
        88/100 ≤ 1 - env.dist (env.embed t) r.embedding) →
      (add env s t c {} false).warned = true ∧
      (add env s t c {} false).inserted = true ∧
      (add env s t c {} false).state.records.length =
        s.records.length + 1) := by
  constructor
  · intro hhit
    rcases checkNearDuplicate_hit hhit with ⟨r, hr, heq, hle⟩
    rw [add_near_hit env s t c {} hL heq]
    exact ⟨rfl, rfl, ⟨r, hr, rfl, hle⟩⟩
  · intro hno hex
    have hc := checkNearDuplicate_of_no_hit hno
    rw [add_insert env s t c {} hL hc.1]
    refine ⟨?_, rfl, by simp [insertRecord]⟩
    show (checkNearDuplicate env s.records (env.embed t) (95/100)).2 = true
    rw [hc.2]
    rcases hex with ⟨r, hr, h88⟩
    have hne : s.records.isEmpty = false := by
      have hmem := vectorQueryRecs_subset hr
      cases hrecs : s.records with
      | nil => rw [hrecs] at hmem; cases hmem
      | cons a l => rfl
    rw [hne]
    simp only [Bool.not_false, Bool.true_and]
    exact List.any_eq_true.2 ⟨r, hr, by simpa using h88⟩

/-- C4 witness: a similarity-1 neighbour absorbs the call without a write;
a similarity-0.9 neighbour triggers the warning while a new record is
still inserted. -/
theorem add_near_duplicate_gate_witness :
    ((add envZero stateNear "tt" "general" {} false).state = stateNear ∧
     (add envZero stateNear "tt" "general" {} false).inserted = false) ∧
    ((add envWarn stateWarn "tt" "general" {} false).warned = true ∧
     (add envWarn stateWarn "tt" "general" {} false).inserted = true ∧
     (add envWarn stateWarn "tt" "general" {} false).state.records.length =
       stateWarn.records.length + 1) := by
  have ha := add_near_duplicate_gate envZero stateNear "tt" "general"
    (by decide)
  have hb := add_near_duplicate_gate envWarn stateWarn "tt" "general"
    (by decide)
  exact ⟨⟨(ha.1 (by decide)).1, (ha.1 (by decide)).2.1⟩,
    hb.2 (by decide) (by decide)⟩

/-- C6: in a non-dry decay pass, every evaluated record (not pinned, not
recently accessed) gets `new_confidence = round(confidence - 0.10, 2)`;
if that is below the threshold the record is removed from both the vector
index and the keyword index by the batched deletion, otherwise the new
confidence is persisted; the reported `deleted` and `decayed` counts are
exactly the numbers of records in each class. -/
theorem decay_pass_spec (env : Env) (s : EngineState) (thr : ℚ)
    (age : Nat) (r : MemoryRecord) (hwf : s.wf) (hr : r ∈ s.records)
    (hpin : r.meta.pinned = false)
    (hstale : ¬env.now - age < r.meta.lastAccessed) :
    (newConf r < thr →
      r.id ∉ (decay env s false thr age).2.records.map (fun x => x.id) ∧
      r.id ∉ (decay env s false thr age).2.fts.map Prod.fst) ∧
    (¬newConf r < thr →
      withNewConf r ∈ (decay env s false thr age).2.records) ∧
    (decay env s false thr age).1.deleted =
      (s.records.filter (isDeletedRec thr (env.now - age))).length ∧
    (decay env s false thr age).1.decayed =
      (s.records.filter (isDecayedRec thr (env.now - age))).length := by
  have hne : ¬s.records.length = 0 := by
    intro h0
    rw [List.length_eq_zero] at h0
    rw [h0] at hr
    cases hr
  rw [decay_false_eq env s thr age hne]
  refine ⟨?_, ?_, rfl, rfl⟩
  · intro hdel
    have hDel : isDeletedRec thr (env.now - age) r = true := by
      simp [isDeletedRec, hpin, hstale, hdel]
    have hmemD : r.id ∈ (s.records.filter (isDeletedRec thr
        (env.now - age))).map (fun y => y.id) :=
      List.mem_map_of_mem _ (List.mem_filter.2 ⟨hr, hDel⟩)
    have hDne : ¬((s.records.filter (isDeletedRec thr
        (env.now - age))).map (fun x => x.id)).isEmpty = true := by
      intro hcon
      rw [List.isEmpty_iff] at hcon
      rw [hcon] at hmemD
      cases hmemD
    rw [if_neg hDne]
    constructor
    · intro hmem
      rcases List.mem_map.1 hmem with ⟨x, hx, hxid⟩
      have hx2 := (List.mem_filter.1 hx).2
      rw [hxid] at hx2
      exact absurd hmemD (by simpa using hx2)
    · intro hmem
      rcases List.mem_map.1 hmem with ⟨x, hx, hxid⟩
      have hx2 := (List.mem_filter.1 hx).2
      rw [hxid] at hx2
      exact absurd hmemD (by simpa using hx2)
  · intro hnc
    have hDel_false : isDeletedRec thr (env.now - age) r = false := by
      simp [isDeletedRec, hpin, hstale, hnc]
    have htr : decayTransform false thr (env.now - age) r =
        withNewConf r := by
      simp [decayTransform, withNewConf, hpin, hstale, hnc]
    have hmemM : withNewConf r ∈
        s.records.map (decayTransform false thr (env.now - age)) :=
      htr ▸ List.mem_map_of_mem _ hr
    by_cases hD : ((s.records.filter (isDeletedRec thr
        (env.now - age))).map (fun x => x.id)).isEmpty
    · rw [if_pos hD]
      exact hmemM
    · rw [if_neg hD]
      refine List.mem_filter.2 ⟨hmemM, ?_⟩
      have hnotin : r.id ∉ (s.records.filter (isDeletedRec thr
          (env.now - age))).map (fun y => y.id) := by
        intro hcon
        rcases List.mem_map.1 hcon with ⟨y, hy, hyid⟩
        have hyrec := (List.mem_filter.1 hy).1
        have : y = r := nodup_map_eq hwf hyrec hr hyid
        rw [this] at hy
        have := (List.mem_filter.1 hy).2
        rw [hDel_false] at this
        cases this
      simpa using hnotin

/-- C6 witness: a non-pinned stale record with confidence 0.20 under
threshold 0.15 is removed from both indexes in the same pass. -/
theorem decay_pass_spec_witness :
    "rD" ∉ (decay envZero stateStale false (3/20) 30).2.records.map
      (fun x => x.id) ∧
    "rD" ∉ (decay envZero stateStale false (3/20) 30).2.fts.map
      Prod.fst := by
  have h := decay_pass_spec envZero stateStale (3/20) 30 recStale
    (by unfold EngineState.wf EngineState.ids; decide) (by decide)
    (by decide) (by decide)
  exact h.1 (by decide)

/-- C10: the deduplication gate does not exclude retracted records — a
non-forced `add` whose content hash is owned by a retracted record (or
whose returned ≥0.95-similarity nearest neighbour is retracted) returns
that retracted record's id and inserts nothing, and default `search` will
never return that id. -/
theorem dedup_gate_ignores_retraction :
    (∀ (env : Env) (s : EngineState) (t c rid : String)
        (r : MemoryRecord), s.wf →
      hashLookup s.hashes (normHash env t) = some rid →
      r ∈ s.records → r.id = rid → r.meta.retracted = true →
      (add env s t c {} false).id = rid ∧
      (add env s t c {} false).state = s ∧
      (add env s t c {} false).inserted = false ∧
      ∀ q n cat, rid ∉ (search env s q n cat false).results.map
        (fun e => e.id)) ∧
    (∀ (env : Env) (s : EngineState) (t c : String)
        (r : MemoryRecord), s.wf →
      hashLookup s.hashes (normHash env t) = none →
      r ∈ s.records → r.meta.retracted = true →
      (checkNearDuplicate env s.records (env.embed t) (95/100)).1.map
        Prod.fst = some r.id →
      (add env s t c {} false).id = r.id ∧
      (add env s t c {} false).state = s ∧
      (add env s t c {} false).inserted = false ∧
      ∀ q n cat, r.id ∉ (search env s q n cat false).results.map
        (fun e => e.id)) := by
  constructor
  · intro env s t c rid r hwf hlook hr hid hret
    rw [add_exact_hit env s t c {} hlook]
    refine ⟨rfl, rfl, rfl, ?_⟩
    intro q n cat
    have h := @search_excludes_retracted env s q n cat r hwf hr hret
    rwa [hid] at h
  · intro env s t c r hwf hlook hr hret hmap
    rcases Option.map_eq_some'.1 hmap with ⟨p, hp, hp1⟩
    rw [add_near_hit env s t c {} hlook hp]
    refine ⟨hp1, rfl, rfl, ?_⟩
    intro q n cat
    exact @search_excludes_retracted env s q n cat r hwf hr hret

/-- C10 witness: re-adding content whose hash is owned by a retracted
record (and, separately, content absorbed by a retracted ≥0.95
neighbour) returns the retracted id without inserting, and default
search never returns that id. -/
theorem dedup_gate_ignores_retraction_witness :
    ((add envZero stateRetExact "tt" "general" {} false).id = "x" ∧
     (add envZero stateRetExact "tt" "general" {} false).state =
       stateRetExact ∧
     "x" ∉ (search envZero stateRetExact "q" 3 none false).results.map
       (fun e => e.id)) ∧
    ((add envZero stateRetNear "tt" "general" {} false).id = recRetX.id ∧
     (add envZero stateRetNear "tt" "general" {} false).state =
       stateRetNear) := by
  have h1 := dedup_gate_ignores_retraction.1 envZero stateRetExact "tt"
    "general" "x" recRetX
    (by unfold EngineState.wf EngineState.ids; decide) (by decide)
    (by decide) (by decide) (by decide)
  have h2 := dedup_gate_ignores_retraction.2 envZero stateRetNear "tt"
    "general" recRetX
    (by unfold EngineState.wf EngineState.ids; decide) (by decide)
    (by decide) (by decide) (by decide)
  exact ⟨⟨h1.1, h1.2.1, h1.2.2.2 "q" 3 none⟩, ⟨h2.1, h2.2.1⟩⟩

end SemanticMemory


